import Mathlib

/-!
Verification of the newera vector-retrieval subsystem.

Shallow embedding of the core vecdb modules:
  app/vecdb/local_storage.py      (LocalJSONStorage)
  app/vecdb/faiss_manager.py      (FaissManager.add_vectors)
  app/vecdb/faiss_factory.py      (recommend_index_type)
  app/vecdb/embedding_service.py  (EmbeddingService.embed_query / embed_documents)
  app/vecdb/retriever.py          (RAGRetriever.retrieve / retrieve_with_rerank)
  app/vecdb/hybrid_agentic_chunker.py
  app/vecdb/document_structure_chunker.py

Modelling conventions:
  Python str values that are scanned character by character are modelled as
  List Char (one entry per character, so List.length coincides with Python len);
  labels and tags that are only compared for equality stay as String.
  Embedding vectors and distances are modelled over the rationals; numpy float32
  rounding is not at issue in any claim.
  External effects (the embedding model, the FAISS ANN search, the LLM backends,
  the regular-expression scan of an LLM response) enter as explicit parameters,
  so a theorem quantifying over them covers every runtime outcome.
  Exceptions are modelled with Except; a raising path returns an error value and
  produces no new state, mirroring Python where the raise precedes any mutation.
-/

namespace NewEra

/-! Character-level primitives mirroring the Python str operations used by the
source (str.strip, str.split, str.join, str.startswith, str.upper).  The
whitespace class is the ASCII part of the Python default. -/

def pySpace (c : Char) : Bool :=
  c = ' ' || c = '\t' || c = '\n' || c = '\r' || c = '\x0b' || c = '\x0c'

/-- Model of Python str.strip(): drop whitespace from both ends. -/
def pyStrip (cs : List Char) : List Char :=
  ((cs.dropWhile pySpace).reverse.dropWhile pySpace).reverse

/-- Model of Python str.split with a one-character separator: non-overlapping,
left to right, empty pieces kept. -/
def splitOnChar (sep : Char) : List Char → List (List Char)
  | [] => [[]]
  | c :: rest =>
    if c = sep then [] :: splitOnChar sep rest
    else
      match splitOnChar sep rest with
      | [] => [[c]]
      | g :: gs => (c :: g) :: gs

/-- Model of Python text.split with the two-character separator of one newline
followed by another: non-overlapping, left to right, empty pieces kept. -/
def splitNN : List Char → List (List Char)
  | [] => [[]]
  | '\n' :: '\n' :: rest => [] :: splitNN rest
  | c :: rest =>
    match splitNN rest with
    | [] => [[c]]
    | g :: gs => (c :: g) :: gs

/-- Model of Python newline.join(lines). -/
def joinNL : List (List Char) → List Char
  | [] => []
  | [l] => l
  | l :: rest => l ++ '\n' :: joinNL rest

def isUpperAZ (c : Char) : Bool := 'A' ≤ c && c ≤ 'Z'

def isLowerAZ (c : Char) : Bool := 'a' ≤ c && c ≤ 'z'

def isLetterAZ (c : Char) : Bool := isUpperAZ c || isLowerAZ c

def isDigit09 (c : Char) : Bool := c.isDigit

/-- ASCII upper-casing of one character, as Python str.upper acts on ASCII. -/
def charUp (c : Char) : Char :=
  if isLowerAZ c then Char.ofNat (c.toNat - 32) else c

/-! Metadata store: LocalJSONStorage (app/vecdb/local_storage.py).
The two parallel JSON arrays are the two list fields; file persistence is
state passing.  A stored metadata record has the fixed key set written by
insert_many lines 81 to 89, plus the updated_at key that update_one may add. -/

structure Meta where
  id : String
  chunk_id : String
  paper_filename : String
  domain : String
  source : String
  chunk_size : Nat
  created_at : String
  updated_at : Option String := none
deriving DecidableEq

structure LocalStore where
  documents : List String
  metadatas : List Meta
deriving DecidableEq

def emptyStore : LocalStore := { documents := [], metadatas := [] }

/-- An input record for insert_many: a Python dict read with doc.get and a
default for every key (local_storage.py lines 78 and 81 to 89).  A missing key
is none. -/
structure InsDoc where
  content : Option String := none
  chunk_id : Option String := none
  paper_filename : Option String := none
  domain : Option String := none
  source : Option String := none
  chunk_size : Option Nat := none
deriving DecidableEq

def docIdStr (n : Nat) : String := "doc_" ++ toString n

/-- Metadata record built for one inserted document (lines 81 to 89); now is
the datetime.now timestamp, passed explicitly. -/
def mkMeta (docId : String) (d : InsDoc) (now : String) : Meta :=
  { id := docId
    chunk_id := d.chunk_id.getD docId
    paper_filename := d.paper_filename.getD ""
    domain := d.domain.getD ""
    source := d.source.getD ""
    chunk_size := d.chunk_size.getD 0
    created_at := now }

/-- LocalJSONStorage.insert_many (lines 60 to 96): for each record, append its
content to the documents array and a fresh metadata record to the metadatas
array; the id counter is the current length of the documents array. -/
def insertMany (st : LocalStore) (docs : List InsDoc) (now : String) :
    LocalStore × List String :=
  match docs with
  | [] => (st, [])
  | d :: rest =>
    let docId := docIdStr st.documents.length
    let st1 : LocalStore :=
      { documents := st.documents ++ [d.content.getD ""]
        metadatas := st.metadatas ++ [mkMeta docId d now] }
    let res := insertMany st1 rest now
    (res.1, docId :: res.2)

/-- Applying an update_one patch to a stored record: the dict update with the
caller patch, then the updated_at stamp (lines 146 to 147). -/
def applyPatch (patch : Meta → Meta) (now : String) (m : Meta) : Meta :=
  { patch m with updated_at := some now }

/-- Scan of the metadatas array by update_one (lines 144 to 150): patch the
first record whose id matches, leaving every other entry in place; none when
no record matches. -/
def updateList (docId : String) (patch : Meta → Meta) (now : String) :
    List Meta → Option (List Meta)
  | [] => none
  | m :: rest =>
    if m.id = docId then some (applyPatch patch now m :: rest)
    else
      match updateList docId patch now rest with
      | some rest2 => some (m :: rest2)
      | none => none

/-- LocalJSONStorage.update_one (lines 142 to 150). -/
def updateOne (st : LocalStore) (docId : String) (patch : Meta → Meta)
    (now : String) : LocalStore × Bool :=
  match updateList docId patch now st.metadatas with
  | some ms => ({ st with metadatas := ms }, true)
  | none => (st, false)

/-- A joined document as returned by find_by_indices (line 138): the content
at the ordinal plus the metadata record when the metadatas array is long
enough, as in line 137. -/
structure JoinedDoc where
  content : String
  meta : Option Meta
deriving DecidableEq

def docAt (st : LocalStore) (i : Nat) : JoinedDoc :=
  { content := st.documents.getD i "", meta := st.metadatas[i]? }

/-- LocalJSONStorage.find_by_indices (lines 124 to 140): keep, in request
order, each index inside the documents array range; silently skip the rest. -/
def findByIndices (st : LocalStore) : List Int → List JoinedDoc
  | [] => []
  | idx :: rest =>
    if 0 ≤ idx ∧ idx < (st.documents.length : Int) then
      docAt st idx.toNat :: findByIndices st rest
    else
      findByIndices st rest

/-- LocalJSONStorage.count (line 152). -/
def countDocs (st : LocalStore) : Nat := st.documents.length

/-- One insert_many call per element, threading the store (the sequence of
ingestion batches of the claim on ordinal alignment). -/
def insertSeq (st : LocalStore) : List (List InsDoc × String) → LocalStore
  | [] => st
  | b :: rest => insertSeq (insertMany st b.1 b.2).1 rest

/-- Description of the metadata records insert_many is expected to append for
records inserted when the documents array has the given start length; stated
from the claim, to be compared with the records the source actually builds. -/
def expectedMetas (startIdx : Nat) (now : String) : List InsDoc → List Meta
  | [] => []
  | d :: rest => mkMeta (docIdStr startIdx) d now :: expectedMetas (startIdx + 1) now rest

/-- Description of the ids insert_many is expected to return, in order. -/
def expectedIds (startIdx : Nat) : List InsDoc → List String
  | [] => []
  | _ :: rest => docIdStr startIdx :: expectedIds (startIdx + 1) rest

/-! Index manager: FaissManager (app/vecdb/faiss_manager.py).  State is the
index dimension and the stored vectors in insertion order; total_vectors is
the stored count.  A batch passed to add_vectors is a 2-d numpy array: its
rows plus its second shape component (which exists even for an empty batch). -/

structure FaissState where
  dimension : Nat
  vectors : List (List ℚ)
deriving DecidableEq

def totalVectors (st : FaissState) : Nat := st.vectors.length

inductive AddError where
  | countMismatch
  | dimMismatch
deriving DecidableEq

/-- FaissManager.add_vectors (lines 79 to 92): raise on a count mismatch
between vectors and metadatas, then raise on a dimension mismatch, and only
after both guards append the batch; nMetadatas is len(metadatas). -/
def addVectors (st : FaissState) (rows : List (List ℚ)) (rowDim : Nat)
    (nMetadatas : Nat) : Except AddError FaissState :=
  if rows.length ≠ nMetadatas then .error .countMismatch
  else if rowDim ≠ st.dimension then .error .dimMismatch
  else .ok { st with vectors := st.vectors ++ rows }

/-- Concrete index state of the spec dimension-guard scenario: a 768 index
holding three vectors. -/
def faissDemo : FaissState :=
  { dimension := 768, vectors := List.replicate 3 (List.replicate 768 0) }

/-! Index factory: recommend_index_type (app/vecdb/faiss_factory.py,
lines 171 to 200). -/

inductive IndexType where
  | flat
  | hnsw
  | ivf
  | ivf_pq
deriving DecidableEq

def recommend_index_type (num_vectors : Nat) (memory_constraint : Bool) :
    IndexType :=
  if num_vectors < 10000 then .flat
  else if num_vectors < 100000 then
    if memory_constraint then .ivf else .hnsw
  else if num_vectors < 1000000 then
    if memory_constraint then .ivf_pq else .ivf
  else .ivf_pq

/-! Embedding provider: EmbeddingService (app/vecdb/embedding_service.py).
The underlying model call is an explicit outcome parameter: some vector on
success, none when the call raises. -/

/-- EmbeddingService.embed_query (lines 58 to 65): the model vector on
success, a zero vector of the provider dimension on failure. -/
def embed_query (dim : Nat) (modelResult : Option (List ℚ)) : List ℚ :=
  match modelResult with
  | some v => v
  | none => List.replicate dim 0

/-- EmbeddingService.embed_documents (lines 67 to 74): the model matrix on
success, a zero matrix with one row per input text on failure. -/
def embed_documents (dim : Nat) (texts : List String)
    (modelResult : Option (List (List ℚ))) : List (List ℚ) :=
  match modelResult with
  | some vs => vs
  | none => List.replicate texts.length (List.replicate dim 0)

/-! Retriever: RAGRetriever (app/vecdb/retriever.py), with the
LocalJSONStorage backend branch, the one the spec and the claims pin down.
The embedding service and the FAISS search are explicit function parameters;
search qe k returns the (distances, indices) pair of line 61. -/

/-- Truthiness of the filter_domain argument in the line 60 and line 94
conditions: Python treats both None and the empty string as no filter. -/
def filterTruthy : Option String → Bool
  | none => false
  | some s => s ≠ ""

/-- Over-fetch factor of line 60: three times top_k when a domain filter is
active. -/
def searchK (fd : Option String) (top_k : Nat) : Nat :=
  if filterTruthy fd then top_k * 3 else top_k

/-- Fallback chunk id string of lines 77 and 87, chunk_ followed by the
ordinal zero-padded to six digits. -/
def chunkIdStr (idx : Int) : String :=
  let s := toString idx.toNat
  "chunk_" ++ String.mk (List.replicate (6 - s.length) '0') ++ s

/-- Retrieval result record of lines 99 to 110.  The metadata sub-dict is
flattened into fields; score is the line 97 similarity.  rerankScore is the
rerank_score key that retrieve_with_rerank may add later. -/
structure RResult where
  content : String
  chunk_id : String
  paper_filename : String
  domain : String
  source : String
  chunk_size : Nat
  score : ℚ
  distance : ℚ
  rerankScore : Option ℚ := none
deriving DecidableEq

/-- The doc.get lookup of the domain key on a joined document: none when the
metadata record was missing at the ordinal. -/
def domainOpt (doc : JoinedDoc) : Option String := doc.meta.map (·.domain)

/-- Result built for one surviving candidate (lines 87 and 97 to 110). -/
def mkResult (doc : JoinedDoc) (idx : Int) (dist : ℚ) : RResult :=
  { content := doc.content
    chunk_id :=
      match doc.meta with
      | some m => m.chunk_id
      | none => chunkIdStr idx
    paper_filename := (doc.meta.map (·.paper_filename)).getD ""
    domain := (doc.meta.map (·.domain)).getD ""
    source := (doc.meta.map (·.source)).getD ""
    chunk_size := (doc.meta.map (·.chunk_size)).getD 0
    score := 1 / (1 + dist)
    distance := dist }

/-- The join loop of lines 81 to 115 for the LocalJSONStorage branch: the
positional doc_map lookup by running index i, the domain filter with Python
truthiness, the append, and the break once top_k results are collected. -/
def retrieveGo (docs : List JoinedDoc) (fd : Option String) (top_k : Nat) :
    List (Int × ℚ) → Nat → List RResult → List RResult
  | [], _, acc => acc
  | (idx, dist) :: rest, i, acc =>
    match docs[i]? with
    | none => retrieveGo docs fd top_k rest (i + 1) acc
    | some doc =>
      if filterTruthy fd ∧ domainOpt doc ≠ fd then
        retrieveGo docs fd top_k rest (i + 1) acc
      else
        let acc2 := acc ++ [mkResult doc idx dist]
        if top_k ≤ acc2.length then acc2
        else retrieveGo docs fd top_k rest (i + 1) acc2

/-- RAGRetriever.retrieve (lines 44 to 119), LocalJSONStorage branch: embed
the query, ANN search with the over-fetch factor, keep the non-negative
ordinals, join them to metadata positionally, filter, score, truncate. -/
def retrieve (embedQ : String → List ℚ)
    (search : List ℚ → Nat → List ℚ × List Int) (st : LocalStore)
    (query : String) (top_k : Nat) (fd : Option String) : List RResult :=
  let qe := embedQ query
  let sk := searchK fd top_k
  let distances := (search qe sk).1
  let indices := (search qe sk).2
  let valid := indices.filter (fun idx => 0 ≤ idx)
  if valid.isEmpty then []
  else
    let docs := findByIndices st valid
    retrieveGo docs fd top_k (valid.zip (distances.take valid.length)) 0 []

/-- Dot product of two embedding vectors, the np.dot of line 151. -/
def dotQ (a b : List ℚ) : ℚ := (List.zipWith (· * ·) a b).sum

/-- Comparator of the line 156 sort: stable, descending by rerank_score. -/
def rerankLe (a b : RResult) : Bool :=
  decide (b.rerankScore.getD 0 ≤ a.rerankScore.getD 0)

/-- RAGRetriever.retrieve_with_rerank (lines 121 to 160).  The second
component counts the embedding-service calls made by the rerank phase: the
line 145 query re-embedding plus one line 149 call per candidate; zero when
the initial pool already fits in top_k and is returned unchanged (line 143). -/
def retrieveWithRerank (embedQ : String → List ℚ)
    (search : List ℚ → Nat → List ℚ × List Int) (st : LocalStore)
    (query : String) (top_k initial_k : Nat) (fd : Option String) :
    List RResult × Nat :=
  let initial := retrieve embedQ search st query initial_k fd
  if initial.length ≤ top_k then (initial, 0)
  else
    let qe := embedQ query
    let reranked := initial.map fun r =>
      { r with rerankScore := some (dotQ qe (embedQ r.content)) }
    ((reranked.mergeSort rerankLe).take top_k, 1 + initial.length)

/-! Hybrid agentic chunker (app/vecdb/hybrid_agentic_chunker.py).  An LLM
response is consumed through the regex scan of _parse_llm_response line 314,
whose outcome is a list of (chunk number, raw fragment) matches; the scan
itself is external text processing, so the matches list is a parameter and the
theorems quantify over it.  A backend whose call raises, or whose response
yields no matches, contributes the empty match list. -/

structure LChunk where
  id : Nat
  content : List Char
  size : Nat
  method : String
deriving DecidableEq

structure HChunk where
  id : Nat
  content : List Char
  size : Nat
  method : String
  llm_backend : Option String := none
  llm_model : Option String := none
deriving DecidableEq

/-- HybridAgenticChunker._parse_llm_response (lines 308 to 327): strip each
matched fragment and keep it only when non-empty and longer than 50
characters. -/
def parseLLMResponse (ms : List (Nat × List Char)) : List LChunk :=
  ms.filterMap fun m =>
    let c := pyStrip m.2
    if c ≠ [] ∧ 50 < c.length then
      some { id := m.1, content := c, size := c.length, method := "agentic" }
    else none

/-- Backend tagging applied to every parsed chunk (lines 242 to 244 and 272
to 274). -/
def tagChunks (backend modelName : String) (cs : List LChunk) : List HChunk :=
  cs.map fun c =>
    { id := c.id, content := c.content, size := c.size, method := c.method
      llm_backend := some backend, llm_model := some modelName }

/-- HybridAgenticChunker._chunk_with_local (lines 216 to 250): parse the local
response and tag the chunks; a raised call or an unparsable response is the
empty match list, giving the empty result the caller treats as failure. -/
def chunkWithLocal (ms : List (Nat × List Char)) : List HChunk :=
  tagChunks "local" "Qwen2.5-3B-Korean" (parseLLMResponse ms)

/-- HybridAgenticChunker._chunk_with_gemini (lines 252 to 280). -/
def chunkWithGemini (ms : List (Nat × List Char)) : List HChunk :=
  tagChunks "gemini" "gemini-2.0-flash-001" (parseLLMResponse ms)

/-- HybridAgenticChunker._fallback_chunking (lines 329 to 347): split on
blank lines, strip, keep paragraphs longer than 100 characters, number by the
1-based paragraph position. -/
def fallbackChunking (text : List Char) : List HChunk :=
  ((splitNN text).enum).filterMap fun p =>
    let para := pyStrip p.2
    if para ≠ [] ∧ 100 < para.length then
      some { id := p.1 + 1, content := para, size := para.length
             method := "fallback", llm_backend := some "none" }
    else none

/-- HybridAgenticChunker.chunk_text in the AUTO backend mode (lines 147 to
192): local first, then gemini, then the naive fallback; hasLocal and
hasGemini say whether each backend object was successfully initialised.  The
success and cost counters are observability only and are not modelled. -/
def chunkTextAuto (hasLocal hasGemini : Bool)
    (localMatches gemMatches : List (Nat × List Char)) (text : List Char) :
    List HChunk :=
  if pyStrip text = [] then []
  else
    let localChunks := if hasLocal then chunkWithLocal localMatches else []
    if localChunks ≠ [] then localChunks
    else
      let gemChunks := if hasGemini then chunkWithGemini gemMatches else []
      if gemChunks ≠ [] then gemChunks
      else fallbackChunking text

/-! Structure-aware chunker (app/vecdb/document_structure_chunker.py).  The
section and subsection header regexes of lines 30 to 54 are translated
pattern by pattern; the section patterns are matched with IGNORECASE
(line 64), the subsection patterns without (line 72). -/

/-- The thirteen literal section headings, upper-cased; EXPERIMENTS and
RESULTS appear with and without the optional final S. -/
def sectionWords : List (List Char) :=
  ["ABSTRACT".data, "INTRODUCTION".data, "BACKGROUND".data,
   "RELATED WORK".data, "METHODOLOGY".data, "METHOD".data, "APPROACH".data,
   "EXPERIMENT".data, "EXPERIMENTS".data, "RESULT".data, "RESULTS".data,
   "DISCUSSION".data, "CONCLUSION".data, "REFERENCES".data, "APPENDIX".data]

/-- Consume one or more characters of a class from the front; none when the
first character is not in the class.  The classes adjacent in each pattern
are disjoint, so this greedy step agrees with the regex engine. -/
def span1 (p : Char → Bool) : List Char → Option (List Char)
  | [] => none
  | c :: rest => if p c then some (rest.dropWhile p) else none

def letterOrSpace (c : Char) : Bool := isLetterAZ c || pySpace c

/-- Tail of the numbered-heading patterns: one or more letters or whitespace
characters, to the end of the line. -/
def tailLS (cs : List Char) : Bool := !cs.isEmpty && cs.all letterOrSpace

/-- Numbered section pattern of line 45, digits then a dot then whitespace
then letters, matched case-insensitively. -/
def matchNumberedSection (cs : List Char) : Bool :=
  match span1 isDigit09 cs with
  | some ('.' :: r2) =>
    match span1 pySpace r2 with
    | some (c :: r4) => isLetterAZ c && tailLS r4
    | _ => false
  | _ => false

def isRomanIVX (c : Char) : Bool :=
  c = 'I' || c = 'V' || c = 'X' || c = 'i' || c = 'v' || c = 'x'

/-- Roman-numbered section pattern of line 46, matched case-insensitively. -/
def matchRomanSection (cs : List Char) : Bool :=
  match span1 isRomanIVX cs with
  | some ('.' :: r2) =>
    match span1 pySpace r2 with
    | some (c :: r4) => isLetterAZ c && tailLS r4
    | _ => false
  | _ => false

/-- Tail of the title-case subsection pattern of line 51: any characters
other than a newline, ending in a lowercase letter. -/
def matchTitleTail : List Char → Bool
  | [] => false
  | [c] => isLowerAZ c
  | c :: rest => (c ≠ '\n') && matchTitleTail rest

/-- Title-case subsection pattern of line 51: an uppercase letter, a
lowercase letter, then anything ending in a lowercase letter. -/
def matchTitleCase : List Char → Bool
  | c0 :: c1 :: rest => isUpperAZ c0 && isLowerAZ c1 && matchTitleTail rest
  | _ => false

/-- Numbered subsection pattern of line 53, case-sensitive. -/
def matchNumberedSubsection (cs : List Char) : Bool :=
  match span1 isDigit09 cs with
  | some ('.' :: r2) =>
    match span1 isDigit09 r2 with
    | some r3 =>
      match span1 pySpace r3 with
      | some (c :: r5) => isUpperAZ c && tailLS r5
      | _ => false
    | _ => false
  | _ => false

/-- DocumentStructureChunker.is_section_header (lines 60 to 66). -/
def isSectionHeader (line : List Char) : Bool :=
  let t := pyStrip line
  sectionWords.contains (t.map charUp) || matchNumberedSection t ||
    matchRomanSection t

/-- DocumentStructureChunker.is_subsection_header (lines 68 to 74). -/
def isSubsectionHeader (line : List Char) : Bool :=
  let t := pyStrip line
  matchTitleCase t || matchNumberedSubsection t

/-- A structure-based chunk (lines 191 to 198); sec is the section key, which
falls back to the Unknown label through Python or-truthiness. -/
structure SChunk where
  id : Nat
  content : List Char
  size : Nat
  sec : List Char
  subsec : Option (List Char)
deriving DecidableEq

/-- Python section or Unknown of line 195: the stored section unless it is
missing or empty. -/
def pyOrUnknown (o : Option (List Char)) : List Char :=
  match o with
  | some s => if s.isEmpty then "Unknown".data else s
  | none => "Unknown".data

/-- DocumentStructureChunker._create_chunk (lines 177 to 200): join the
accumulated lines, strip, drop the chunk when shorter than the minimum. -/
def createChunk (minSize : Nat) (contentLines : List (List Char)) (cid : Nat)
    (sect : Option (List Char)) (subsect : Option (List Char)) :
    Option SChunk :=
  let content := pyStrip (joinNL contentLines)
  if content.length < minSize then none
  else
    some { id := cid, content := content, size := content.length
           sec := pyOrUnknown sect, subsec := subsect }

/-- Loop state of DocumentStructureChunker.chunk_text (lines 94 to 97). -/
structure SState where
  sect : Option (List Char) := none
  subsect : Option (List Char) := none
  content : List (List Char) := []
  cid : Nat := 1
  chunks : List SChunk := []

/-- Emit the pending chunk if _create_chunk accepts it, advancing the chunk
counter (the repeated lines 110 to 118 save step). -/
def flushChunk (minSize : Nat) (st : SState) : SState :=
  match createChunk minSize st.content st.cid st.sect st.subsect with
  | some c => { st with chunks := st.chunks ++ [c], cid := st.cid + 1 }
  | none => st

/-- One iteration of the line loop of chunk_text (lines 99 to 158). -/
def structureStep (minSize maxSize : Nat) (st : SState) (line : List Char) :
    SState :=
  let stripped := pyStrip line
  if ("=== Page".data).isPrefixOf stripped then st
  else if isSectionHeader stripped then
    let st1 := if st.content ≠ [] then flushChunk minSize st else st
    { st1 with sect := some stripped, subsect := none, content := [line] }
  else if isSubsectionHeader stripped ∧ stripped.length < 100 then
    let st1 :=
      if st.content ≠ [] ∧ 1 < st.content.length then flushChunk minSize st
      else st
    { st1 with subsect := some stripped, content := [line] }
  else
    let content2 := st.content ++ [line]
    if maxSize < (joinNL content2).length then
      let st1 := flushChunk minSize { st with content := content2 }
      { st1 with content := [] }
    else { st with content := content2 }

/-- DocumentStructureChunker.chunk_text (lines 76 to 175): empty input gives
no chunks; otherwise fold the line loop over the newline-split text, then
save the final pending chunk. -/
def structureChunkText (minSize maxSize : Nat) (text : List Char) :
    List SChunk :=
  if pyStrip text = [] then []
  else
    let final := (splitOnChar '\n' text).foldl (structureStep minSize maxSize) {}
    let final2 := if final.content ≠ [] then flushChunk minSize final else final
    final2.chunks

/-- Chunk contract of the structure-aware chunker: the emitted size respects
the configured minimum and equals the content length. -/
def schunkOK (minSize : Nat) (c : SChunk) : Prop :=
  minSize ≤ c.size ∧ c.size = c.content.length

/-! Concrete instances used by witnesses and counterexamples. -/

/-- A single 60-character line, matching no header pattern. -/
def cexLongLine : List Char := List.replicate 60 'a'

def demoMeta : Meta :=
  { id := "doc_0", chunk_id := "chunk_000000", paper_filename := "p.pdf"
    domain := "A", source := "arxiv", chunk_size := 5, created_at := "t0" }

/-- A one-document store whose single record carries domain A. -/
def demoStore : LocalStore :=
  { documents := ["hello"], metadatas := [demoMeta] }

/-- Embedding stub returning the empty vector for every text. -/
def cexEmbed : String → List ℚ := fun _ => []

/-- Search stub: ordinal 0 in the first slot and the -1 sentinel in the rest,
with zero distances; faiss-shaped in that both arrays have length k. -/
def cexSearch : List ℚ → Nat → List ℚ × List Int := fun _ k =>
  (List.replicate k 0, (List.range k).map (fun i => if i = 0 then 0 else -1))

/-- Two-document store for the rerank scenario. -/
def rerankStore : LocalStore :=
  { documents := ["ca", "cb"]
    metadatas :=
      [{ id := "doc_0", chunk_id := "chunk_000000", paper_filename := ""
         domain := "A", source := "", chunk_size := 2, created_at := "t0" },
       { id := "doc_1", chunk_id := "chunk_000001", paper_filename := ""
         domain := "A", source := "", chunk_size := 2, created_at := "t0" }]}

/-- Embedding stub for the rerank scenario: the query aligns with the second
document content and is orthogonal to the first. -/
def rerankEmbed : String → List ℚ := fun s =>
  if s = "q" then [1, 0] else if s = "ca" then [0, 1] else [1, 0]

/-- Search stub for the rerank scenario: ordinals 0 and 1 then sentinels. -/
def rerankSearch : List ℚ → Nat → List ℚ × List Int := fun _ k =>
  (List.replicate k 0,
   (List.range k).map (fun i => if i = 0 then 0 else if i = 1 then 1 else -1))

/-! Helper lemmas. -/

theorem insertMany_documents (docs : List InsDoc) :
    ∀ (st : LocalStore) (now : String),
      (insertMany st docs now).1.documents =
        st.documents ++ docs.map (fun d => d.content.getD "") := by
  induction docs with
  | nil => intro st now; simp [insertMany]
  | cons d rest ih =>
    intro st now
    simp only [insertMany, List.map_cons]
    rw [ih]
    simp

theorem insertMany_metadatas (docs : List InsDoc) :
    ∀ (st : LocalStore) (now : String),
      (insertMany st docs now).1.metadatas =
        st.metadatas ++ expectedMetas st.documents.length now docs := by
  induction docs with
  | nil => intro st now; simp [insertMany, expectedMetas]
  | cons d rest ih =>
    intro st now
    simp only [insertMany, expectedMetas]
    rw [ih]
    simp

theorem insertMany_ids (docs : List InsDoc) :
    ∀ (st : LocalStore) (now : String),
      (insertMany st docs now).2 = expectedIds st.documents.length docs := by
  induction docs with
  | nil => intro st now; simp [insertMany, expectedIds]
  | cons d rest ih =>
    intro st now
    simp only [insertMany, expectedIds]
    rw [ih]
    simp

theorem expectedMetas_length (docs : List InsDoc) :
    ∀ (startIdx : Nat) (now : String),
      (expectedMetas startIdx now docs).length = docs.length := by
  induction docs with
  | nil => intro startIdx now; simp [expectedMetas]
  | cons d rest ih => intro startIdx now; simp [expectedMetas, ih]

theorem updateList_some_spec (docId : String) (patch : Meta → Meta)
    (now : String) :
    ∀ (ms ms2 : List Meta), updateList docId patch now ms = some ms2 →
      ms2.length = ms.length ∧
      ∀ j : Nat, ms2[j]? = ms[j]? ∨
        ∃ m, ms[j]? = some m ∧ ms2[j]? = some (applyPatch patch now m) := by
  intro ms
  induction ms with
  | nil => intro ms2 h; simp [updateList] at h
  | cons m rest ih =>
    intro ms2 h
    by_cases hid : m.id = docId
    · simp only [updateList, if_pos hid] at h
      cases h
      refine ⟨by simp, ?_⟩
      intro j
      cases j with
      | zero => exact Or.inr ⟨m, by simp, by simp⟩
      | succ j => exact Or.inl (by simp)
    · simp only [updateList, if_neg hid] at h
      cases hrec : updateList docId patch now rest with
      | none => rw [hrec] at h; exact absurd h (by simp)
      | some rest2 =>
        rw [hrec] at h
        obtain ⟨hlen, hpos⟩ := ih rest2 hrec
        cases h
        refine ⟨by simp [hlen], ?_⟩
        intro j
        cases j with
        | zero => exact Or.inl (by simp)
        | succ j =>
          rcases hpos j with h1 | ⟨mm, h1, h2⟩
          · exact Or.inl (by simpa using h1)
          · exact Or.inr ⟨mm, by simpa using h1, by simpa using h2⟩

theorem updateOne_documents (st : LocalStore) (docId : String)
    (patch : Meta → Meta) (now : String) :
    (updateOne st docId patch now).1.documents = st.documents := by
  unfold updateOne
  cases h : updateList docId patch now st.metadatas <;> simp

theorem updateOne_metadatas_spec (st : LocalStore) (docId : String)
    (patch : Meta → Meta) (now : String) :
    (updateOne st docId patch now).1.metadatas.length = st.metadatas.length ∧
    ∀ j : Nat,
      (updateOne st docId patch now).1.metadatas[j]? = st.metadatas[j]? ∨
      ∃ m, st.metadatas[j]? = some m ∧
        (updateOne st docId patch now).1.metadatas[j]? =
          some (applyPatch patch now m) := by
  unfold updateOne
  cases h : updateList docId patch now st.metadatas with
  | none => simp
  | some ms2 =>
    obtain ⟨hlen, hpos⟩ := updateList_some_spec docId patch now st.metadatas ms2 h
    exact ⟨by simpa using hlen, by simpa using hpos⟩

theorem insertSeq_documents (batches : List (List InsDoc × String)) :
    ∀ st : LocalStore,
      (insertSeq st batches).documents =
        st.documents ++
          (batches.map (fun b => b.1.map (fun d => d.content.getD ""))).flatten := by
  induction batches with
  | nil => intro st; simp [insertSeq]
  | cons b rest ih =>
    intro st
    simp only [insertSeq, List.map_cons, List.flatten_cons]
    rw [ih, insertMany_documents]
    simp

theorem insertSeq_align (batches : List (List InsDoc × String)) :
    ∀ st : LocalStore, st.metadatas.length = st.documents.length →
      (insertSeq st batches).metadatas.length =
        (insertSeq st batches).documents.length := by
  induction batches with
  | nil => intro st h; simpa [insertSeq] using h
  | cons b rest ih =>
    intro st h
    simp only [insertSeq]
    apply ih
    rw [insertMany_documents, insertMany_metadatas]
    simp [expectedMetas_length, h]

/-! Claim theorems. -/

/-- Claim C1: every LocalJSONStorage operation preserves the ordinal
alignment invariant.  insert_many appends exactly one content entry and one
metadata entry per input record, in the given order (with the fresh ids in
order), and no operation disturbs an entry at an earlier position:
insert_many only appends, update_one leaves the content array and the length
and position of every metadata entry unchanged, patching at most the fields
of the single matched record in place, and the find operations are pure
functions of the state.  Consequently, after any sequence of insert_many
calls starting from the empty store, position i of the content array holds
the content of the i-th record ever inserted and the two arrays have equal
length. -/
theorem C1_ordinal_alignment :
    ∀ (st : LocalStore) (docs : List InsDoc) (now now2 docId : String)
      (patch : Meta → Meta) (batches : List (List InsDoc × String)),
      (insertMany st docs now).1.documents =
          st.documents ++ docs.map (fun d => d.content.getD "") ∧
      (insertMany st docs now).1.metadatas =
          st.metadatas ++ expectedMetas st.documents.length now docs ∧
      (expectedMetas st.documents.length now docs).length = docs.length ∧
      (insertMany st docs now).2 = expectedIds st.documents.length docs ∧
      (updateOne st docId patch now2).1.documents = st.documents ∧
      (updateOne st docId patch now2).1.metadatas.length =
          st.metadatas.length ∧
      (∀ j : Nat,
        (updateOne st docId patch now2).1.metadatas[j]? = st.metadatas[j]? ∨
        ∃ m, st.metadatas[j]? = some m ∧
          (updateOne st docId patch now2).1.metadatas[j]? =
            some (applyPatch patch now2 m)) ∧
      (insertSeq emptyStore batches).documents =
          (batches.map (fun b => b.1.map (fun d => d.content.getD ""))).flatten ∧
      (insertSeq emptyStore batches).metadatas.length =
          (insertSeq emptyStore batches).documents.length := by
  intro st docs now now2 docId patch batches
  obtain ⟨hulen, hupos⟩ := updateOne_metadatas_spec st docId patch now2
  refine ⟨insertMany_documents docs st now, insertMany_metadatas docs st now,
    expectedMetas_length docs st.documents.length now, insertMany_ids docs st now,
    updateOne_documents st docId patch now2, hulen, hupos, ?_, ?_⟩
  · simpa using insertSeq_documents batches emptyStore
  · exact insertSeq_align batches emptyStore (by simp [emptyStore])

/-- Claim C2: for an index of dimension d, add_vectors with a batch of some
other dimension raises the dimension-mismatch error before any mutation, so
the stored vectors and total_vectors keep their prior value; with the right
dimension it appends the whole batch, growing total_vectors by the batch
size.  The count guard precedes the dimension guard, so the batch is assumed
to match its metadata count. -/
theorem C2_dimension_guard :
    ∀ (st : FaissState) (rows : List (List ℚ)) (rowDim nMeta : Nat),
      rows.length = nMeta →
      (rowDim ≠ st.dimension →
        addVectors st rows rowDim nMeta = .error .dimMismatch) ∧
      (rowDim = st.dimension →
        addVectors st rows rowDim nMeta =
          .ok { st with vectors := st.vectors ++ rows } ∧
        totalVectors { st with vectors := st.vectors ++ rows } =
          totalVectors st + rows.length) := by
  intro st rows rowDim nMeta hcount
  constructor
  · intro hdim
    simp [addVectors, hcount, hdim]
  · intro hdim
    exact ⟨by simp [addVectors, hcount, hdim], by simp [totalVectors]⟩

/-- Witness for C2: the spec scenario.  Adding 3 vectors of dimension 768 to
an empty 768 index gives total_vectors 3; a subsequent add of one
512-dimension vector raises the dimension mismatch. -/
theorem C2_dimension_guard_witness :
    addVectors { dimension := 768, vectors := [] }
        (List.replicate 3 (List.replicate 768 (0 : ℚ))) 768 3 =
      .ok faissDemo ∧
    totalVectors faissDemo = 3 ∧
    addVectors faissDemo [List.replicate 512 (0 : ℚ)] 512 1 =
      .error .dimMismatch :=
  ⟨((C2_dimension_guard { dimension := 768, vectors := [] }
      (List.replicate 3 (List.replicate 768 (0 : ℚ))) 768 3 rfl).2 rfl).1,
   rfl,
   (C2_dimension_guard faissDemo [List.replicate 512 (0 : ℚ)] 512 1 rfl).1
     (by decide)⟩

/-- Claim C4: the index recommender characterisation, plus the three spec
data points. -/
theorem C4_recommend_policy :
    ∀ (n : Nat) (mem : Bool),
      (recommend_index_type n mem = .flat ↔ n < 10000) ∧
      (recommend_index_type n mem = .hnsw ↔
        10000 ≤ n ∧ n < 100000 ∧ mem = false) ∧
      (recommend_index_type n mem = .ivf ↔
        (10000 ≤ n ∧ n < 100000 ∧ mem = true) ∨
        (100000 ≤ n ∧ n < 1000000 ∧ mem = false)) ∧
      (recommend_index_type n mem = .ivf_pq ↔
        (100000 ≤ n ∧ n < 1000000 ∧ mem = true) ∨ 1000000 ≤ n) ∧
      recommend_index_type 5000 false = .flat ∧
      recommend_index_type 50000 false = .hnsw ∧
      recommend_index_type 500000 true = .ivf_pq := by
  intro n mem
  refine ⟨?_, ?_, ?_, ?_, by decide, by decide, by decide⟩ <;>
    (unfold recommend_index_type; rcases mem <;> split_ifs <;> simp_all <;> omega)

/-- Claim C8: when the underlying model call fails, embed_query returns the
zero vector of the provider dimension and embed_documents returns a zero
matrix with one row per input text; both are total functions, so no failure
propagates. -/
theorem C8_embedding_failure_degrades :
    ∀ (dim : Nat) (texts : List String),
      embed_query dim none = List.replicate dim 0 ∧
      (embed_query dim none).length = dim ∧
      (∀ x ∈ embed_query dim none, x = 0) ∧
      (embed_documents dim texts none).length = texts.length ∧
      (∀ row ∈ embed_documents dim texts none,
        row = List.replicate dim 0 ∧ row.length = dim) := by
  intro dim texts
  refine ⟨rfl, by simp [embed_query], ?_, by simp [embed_documents], ?_⟩
  · intro x hx
    simp only [embed_query] at hx
    exact List.eq_of_mem_replicate hx
  · intro row hrow
    simp only [embed_documents] at hrow
    have hr := List.eq_of_mem_replicate hrow
    exact ⟨hr, by simp [hr]⟩

/-- Witness for C8 at dimension 4 and a two-text batch. -/
theorem C8_embedding_failure_degrades_witness :
    embed_query 4 none = List.replicate 4 (0 : ℚ) ∧
    (embed_documents 4 ["a", "b"] none).length = 2 :=
  ⟨(C8_embedding_failure_degrades 4 ["a", "b"]).1,
   by simpa using (C8_embedding_failure_degrades 4 ["a", "b"]).2.2.2.1⟩

theorem findByIndices_eq (st : LocalStore) :
    ∀ idxs : List Int,
      findByIndices st idxs =
        (idxs.filter
            (fun idx => decide (0 ≤ idx ∧ idx < (st.documents.length : Int)))).map
          (fun idx => docAt st idx.toNat) := by
  intro idxs
  induction idxs with
  | nil => simp [findByIndices]
  | cons idx rest ih =>
    by_cases h : 0 ≤ idx ∧ idx < (st.documents.length : Int)
    · simp [findByIndices, h, ih]
    · simp [findByIndices, h, ih]

theorem findByIndices_all_inrange (st : LocalStore) :
    ∀ idxs : List Int,
      (∀ idx ∈ idxs, 0 ≤ idx ∧ idx < (st.documents.length : Int)) →
      findByIndices st idxs = idxs.map (fun idx => docAt st idx.toNat) := by
  intro idxs
  induction idxs with
  | nil => intro _; simp [findByIndices]
  | cons idx rest ih =>
    intro h
    have hi := h idx (by simp)
    simp [findByIndices, hi, ih fun j hj => h j (by simp [hj])]

theorem findByIndices_nil_of (st : LocalStore) :
    ∀ idxs : List Int,
      (∀ idx ∈ idxs, ¬(0 ≤ idx ∧ idx < (st.documents.length : Int))) →
      findByIndices st idxs = [] := by
  intro idxs
  induction idxs with
  | nil => intro _; simp [findByIndices]
  | cons idx rest ih =>
    intro h
    have hi := h idx (by simp)
    simp [findByIndices, hi, ih fun j hj => h j (by simp [hj])]

theorem retrieveGo_nil_docs (fd : Option String) (k : Nat) :
    ∀ (pairs : List (Int × ℚ)) (i : Nat) (acc : List RResult),
      retrieveGo [] fd k pairs i acc = acc := by
  intro pairs
  induction pairs with
  | nil => intro i acc; rfl
  | cons p rest ih =>
    intro i acc
    obtain ⟨idx, dist⟩ := p
    simpa [retrieveGo] using ih (i + 1) acc

theorem retrieveGo_length (docs : List JoinedDoc) (fd : Option String)
    (k : Nat) :
    ∀ (pairs : List (Int × ℚ)) (i : Nat) (acc : List RResult),
      acc.length < k → (retrieveGo docs fd k pairs i acc).length ≤ k := by
  intro pairs
  induction pairs with
  | nil => intro i acc h; exact Nat.le_of_lt (by simpa [retrieveGo] using h)
  | cons p rest ih =>
    intro i acc h
    obtain ⟨idx, dist⟩ := p
    cases hd : docs[i]? with
    | none => simpa [retrieveGo, hd] using ih (i + 1) acc h
    | some doc =>
      by_cases hf : filterTruthy fd ∧ domainOpt doc ≠ fd
      · simp only [retrieveGo, hd, if_pos hf]
        exact ih (i + 1) acc h
      · simp only [retrieveGo, hd, if_neg hf]
        by_cases hk : k ≤ (acc ++ [mkResult doc idx dist]).length
        · simp only [if_pos hk]
          simp only [List.length_append, List.length_singleton]
          omega
        · simp only [if_neg hk]
          refine ih (i + 1) _ ?_
          simp only [List.length_append, List.length_singleton] at hk ⊢
          omega

theorem retrieveGo_forall (docs : List JoinedDoc) (fd : Option String)
    (k : Nat) (P : RResult → Prop)
    (hP : ∀ (doc : JoinedDoc) (idx : Int) (dist : ℚ),
      ¬(filterTruthy fd = true ∧ domainOpt doc ≠ fd) →
      P (mkResult doc idx dist)) :
    ∀ (pairs : List (Int × ℚ)) (i : Nat) (acc : List RResult),
      (∀ r ∈ acc, P r) → ∀ r ∈ retrieveGo docs fd k pairs i acc, P r := by
  intro pairs
  induction pairs with
  | nil => intro i acc hacc; simpa [retrieveGo] using hacc
  | cons p rest ih =>
    intro i acc hacc
    obtain ⟨idx, dist⟩ := p
    cases hd : docs[i]? with
    | none => simpa [retrieveGo, hd] using ih (i + 1) acc hacc
    | some doc =>
      by_cases hf : filterTruthy fd ∧ domainOpt doc ≠ fd
      · simp only [retrieveGo, hd, if_pos hf]
        exact ih (i + 1) acc hacc
      · have hacc2 : ∀ r ∈ acc ++ [mkResult doc idx dist], P r := by
          intro r hr
          rcases List.mem_append.mp hr with hr | hr
          · exact hacc r hr
          · rcases List.mem_singleton.mp hr with rfl
            exact hP doc idx dist hf
        simp only [retrieveGo, hd, if_neg hf]
        by_cases hk : k ≤ (acc ++ [mkResult doc idx dist]).length
        · simp only [if_pos hk]
          exact hacc2
        · simp only [if_neg hk]
          exact ih (i + 1) _ hacc2

theorem searchK_zero (fd : Option String) : searchK fd 0 = 0 := by
  unfold searchK
  split <;> simp

theorem retrieve_length_le (e : String → List ℚ)
    (search : List ℚ → Nat → List ℚ × List Int) (st : LocalStore) (q : String)
    (k : Nat) (fd : Option String)
    (hlen : ((search (e q) (searchK fd k)).2).length = searchK fd k) :
    (retrieve e search st q k fd).length ≤ k := by
  simp only [retrieve]
  split
  · simp
  · rename_i hne
    rcases Nat.eq_zero_or_pos k with hk | hk
    · exfalso
      subst hk
      rw [searchK_zero] at hlen
      have hnil : (search (e q) (searchK fd 0)).2 = [] :=
        List.eq_nil_of_length_eq_zero (by simpa [searchK_zero] using hlen)
      rw [hnil] at hne
      simp at hne
    · exact retrieveGo_length _ _ _ _ 0 [] (by simpa using hk)

/-- Claim C9: a query whose search yields only the -1 sentinel slots (the
empty index), or whose non-negative ordinals all miss the metadata store,
gives the empty result list; retrieve is a total function, so neither case
raises. -/
theorem C9_empty_results_not_error :
    ∀ (e : String → List ℚ) (search : List ℚ → Nat → List ℚ × List Int)
      (st : LocalStore) (q : String) (top_k : Nat) (fd : Option String),
      ((∀ idx ∈ (search (e q) (searchK fd top_k)).2, idx < 0) →
        retrieve e search st q top_k fd = []) ∧
      ((∀ idx ∈ (search (e q) (searchK fd top_k)).2,
          0 ≤ idx → (st.documents.length : Int) ≤ idx) →
        retrieve e search st q top_k fd = []) := by
  intro e search st q top_k fd
  constructor
  · intro h
    have hnil : ((search (e q) (searchK fd top_k)).2).filter
        (fun idx => 0 ≤ idx) = [] := by
      rw [List.filter_eq_nil_iff]
      intro idx hidx
      simpa using Int.not_le.mpr (h idx hidx)
    simp only [retrieve, hnil]
    simp
  · intro h
    simp only [retrieve]
    split
    · rfl
    · rw [findByIndices_nil_of, retrieveGo_nil_docs]
      intro idx hidx
      have h0 : (0 : Int) ≤ idx := by
        have := List.of_mem_filter hidx
        simpa using this
      have hmem := List.mem_of_mem_filter hidx
      have := h idx hmem h0
      omega

/-- Claim C10: find_by_indices is total (never raises) and returns, in
request order, exactly one joined document per in-range index, silently
omitting every negative or out-of-range one, so the result can be shorter
than the request; when every requested ordinal is in range the positional
join is exact, the i-th returned document being the document at the i-th
requested ordinal.  The final conjunct shows the shortened return that makes
the positional join drift when an out-of-range ordinal is present: for the
request 5, 0 against a one-document store, position 0 of the result holds the
document of ordinal 0, which the retriever would pair with ordinal 5. -/
theorem C10_find_by_indices_total_join :
    ∀ (st : LocalStore) (idxs : List Int),
      findByIndices st idxs =
        (idxs.filter
            (fun idx => decide (0 ≤ idx ∧ idx < (st.documents.length : Int)))).map
          (fun idx => docAt st idx.toNat) ∧
      (findByIndices st idxs).length ≤ idxs.length ∧
      ((∀ idx ∈ idxs, 0 ≤ idx ∧ idx < (st.documents.length : Int)) →
        ∀ i : Nat, (findByIndices st idxs)[i]? =
          (idxs[i]?).map (fun idx => docAt st idx.toNat)) ∧
      findByIndices demoStore [5, 0] = [docAt demoStore 0] := by
  intro st idxs
  refine ⟨findByIndices_eq st idxs, ?_, ?_, by decide⟩
  · rw [findByIndices_eq]
    simpa using List.length_filter_le _ idxs
  · intro h i
    rw [findByIndices_all_inrange st idxs h]
    simp

/-- Witness for C10: a fully in-range request against the demo store, with
the positional-join hypothesis discharged. -/
theorem C10_find_by_indices_total_join_witness :
    (findByIndices demoStore [0])[0]? = some (docAt demoStore 0) := by
  have h := (C10_find_by_indices_total_join demoStore [0]).2.2.1 (by decide) 0
  simpa using h

/-- Witness for C9: a search returning only sentinel slots gives the empty
result on the demo store. -/
theorem C9_empty_results_not_error_witness :
    retrieve cexEmbed (fun _ k => (List.replicate k 0, List.replicate k (-1)))
      demoStore "q" 5 none = [] := by
  refine (C9_empty_results_not_error cexEmbed
    (fun _ k => (List.replicate k 0, List.replicate k (-1)))
    demoStore "q" 5 none).1 ?_
  intro idx hidx
  have := List.eq_of_mem_replicate hidx
  omega

/-- Claim C3 (amended): for every query, top_k and domain filter, retrieve
returns at most top_k results, and whenever the filter is a non-empty string
every returned result carries exactly that domain.  The hypothesis is the
faiss shape fact that a search with argument k returns k index slots. -/
theorem C3_filtered_retrieve :
    ∀ (e : String → List ℚ) (search : List ℚ → Nat → List ℚ × List Int)
      (st : LocalStore) (q : String) (top_k : Nat) (fd : Option String),
      ((search (e q) (searchK fd top_k)).2).length = searchK fd top_k →
      (retrieve e search st q top_k fd).length ≤ top_k ∧
      ∀ s : String, fd = some s → s ≠ "" →
        ∀ r ∈ retrieve e search st q top_k fd, r.domain = s := by
  intro e search st q top_k fd hlen
  refine ⟨retrieve_length_le e search st q top_k fd hlen, ?_⟩
  intro s hfd hs r hr
  subst hfd
  have hft : filterTruthy (some s) = true := by
    simpa [filterTruthy] using hs
  revert r hr
  have hmk : ∀ (doc : JoinedDoc) (idx : Int) (dist : ℚ),
      ¬(filterTruthy (some s) = true ∧ domainOpt doc ≠ some s) →
      (mkResult doc idx dist).domain = s := by
    intro doc idx dist hcond
    have hdom : domainOpt doc = some s := by
      by_contra hne
      exact hcond ⟨hft, hne⟩
    simp only [mkResult]
    simp only [domainOpt] at hdom
    simp [hdom]
  intro r hr
  simp only [retrieve] at hr
  split at hr
  · simp at hr
  · exact retrieveGo_forall _ (some s) top_k (fun x => x.domain = s) hmk _ 0 []
      (by simp) r hr

/-- Witness for C3: the demo store with filter A returns at most 5 results,
all with domain A. -/
theorem C3_filtered_retrieve_witness :
    (retrieve cexEmbed cexSearch demoStore "q" 5 (some "A")).length ≤ 5 ∧
    ∀ r ∈ retrieve cexEmbed cexSearch demoStore "q" 5 (some "A"),
      r.domain = "A" := by
  have h := C3_filtered_retrieve cexEmbed cexSearch demoStore "q" 5 (some "A")
    (by decide)
  exact ⟨h.1, fun r hr => h.2 "A" rfl (by decide) r hr⟩

/-- Counterexample for C3 as stated: with the empty string as the domain
filter value, Python truthiness disables the filter, and the sole returned
result carries domain A, not the filter value. -/
theorem C3_filtered_retrieve_cex :
    ((retrieve cexEmbed cexSearch demoStore "q" 5 (some "")).map
        (fun r => r.domain)) = ["A"] ∧
    ("A" : String) ≠ "" := by
  exact ⟨by decide, by decide⟩

theorem rerankLe_trans :
    ∀ a b c : RResult, rerankLe a b = true → rerankLe b c = true →
      rerankLe a c = true := by
  intro a b c hab hbc
  simp only [rerankLe, decide_eq_true_eq] at *
  exact le_trans hbc hab

theorem rerankLe_total :
    ∀ a b : RResult, (rerankLe a b || rerankLe b a) = true := by
  intro a b
  simp only [rerankLe, Bool.or_eq_true, decide_eq_true_eq]
  exact le_total _ _

/-- Claim C6 (amended): retrieve_with_rerank fetches an initial pool of at
most initial_k candidates; when the pool exceeds top_k it re-embeds the query
and each candidate content, scores each candidate by the dot product with the
query embedding, and returns top_k candidates sorted descending by that
score, at the cost of one embedding call per candidate plus the query
re-embedding; when the pool already fits in top_k it is returned unchanged
with no rerank and no extra embedding call. -/
theorem C6_rerank_amended :
    ∀ (e : String → List ℚ) (search : List ℚ → Nat → List ℚ × List Int)
      (st : LocalStore) (q : String) (top_k initial_k : Nat)
      (fd : Option String),
      ((retrieve e search st q initial_k fd).length ≤ top_k →
        retrieveWithRerank e search st q top_k initial_k fd =
          (retrieve e search st q initial_k fd, 0)) ∧
      (top_k < (retrieve e search st q initial_k fd).length →
        List.Pairwise
          (fun a b => b.rerankScore.getD 0 ≤ a.rerankScore.getD 0)
          (retrieveWithRerank e search st q top_k initial_k fd).1 ∧
        (retrieveWithRerank e search st q top_k initial_k fd).1.length =
          top_k ∧
        (∀ r ∈ (retrieveWithRerank e search st q top_k initial_k fd).1,
          r ∈ (retrieve e search st q initial_k fd).map
            (fun x =>
              { x with rerankScore := some (dotQ (e q) (e x.content)) })) ∧
        (retrieveWithRerank e search st q top_k initial_k fd).2 =
          1 + (retrieve e search st q initial_k fd).length) ∧
      (((search (e q) (searchK fd initial_k)).2).length =
          searchK fd initial_k →
        (retrieve e search st q initial_k fd).length ≤ initial_k ∧
        (retrieveWithRerank e search st q top_k initial_k fd).2 ≤
          1 + initial_k) := by
  intro e search st q top_k initial_k fd
  refine ⟨?_, ?_, ?_⟩
  · intro h
    simp only [retrieveWithRerank, if_pos h]
  · intro h
    have hnot : ¬(retrieve e search st q initial_k fd).length ≤ top_k :=
      not_le.mpr h
    have hsorted := List.sorted_mergeSort rerankLe_trans rerankLe_total
      ((retrieve e search st q initial_k fd).map
        (fun x => { x with rerankScore := some (dotQ (e q) (e x.content)) }))
    have hperm := List.mergeSort_perm
      ((retrieve e search st q initial_k fd).map
        (fun x => { x with rerankScore := some (dotQ (e q) (e x.content)) }))
      rerankLe
    refine ⟨?_, ?_, ?_, ?_⟩
    · simp only [retrieveWithRerank, if_neg hnot]
      refine List.Pairwise.sublist (List.take_sublist _ _) ?_
      exact hsorted.imp (by
        intro a b hab
        simpa [rerankLe] using hab)
    · simp only [retrieveWithRerank, if_neg hnot]
      rw [List.length_take, hperm.length_eq, List.length_map]
      exact Nat.min_eq_left (Nat.le_of_lt h)
    · intro r hr
      simp only [retrieveWithRerank, if_neg hnot] at hr
      exact hperm.mem_iff.mp (List.take_subset _ _ hr)
    · simp only [retrieveWithRerank, if_neg hnot]
  · intro hlen
    have hb := retrieve_length_le e search st q initial_k fd hlen
    refine ⟨hb, ?_⟩
    by_cases hc : (retrieve e search st q initial_k fd).length ≤ top_k
    · simp only [retrieveWithRerank, if_pos hc]
      omega
    · simp only [retrieveWithRerank, if_neg hc]
      omega

/-- Witness for C6: on the two-document rerank scenario with top_k 1 and
initial_k 5 the pool has 2 candidates, so the reranked output has exactly one
result and is sorted by rerank score. -/
theorem C6_rerank_amended_witness :
    1 < (retrieve rerankEmbed rerankSearch rerankStore "q" 5 none).length ∧
    (retrieveWithRerank rerankEmbed rerankSearch rerankStore "q" 1 5
        none).1.length = 1 ∧
    List.Pairwise (fun a b => b.rerankScore.getD 0 ≤ a.rerankScore.getD 0)
      (retrieveWithRerank rerankEmbed rerankSearch rerankStore "q" 1 5
        none).1 :=
  ⟨by decide,
   ((C6_rerank_amended rerankEmbed rerankSearch rerankStore "q" 1 5
       none).2.1 (by decide)).2.1,
   ((C6_rerank_amended rerankEmbed rerankSearch rerankStore "q" 1 5
       none).2.1 (by decide)).1⟩

/-- Counterexample for C6 as stated: with a pool of 2 candidates and top_k 2
the code returns the pool unchanged, in ANN order ca then cb, with no
rerank_score computed and zero extra embedding calls, although the rerank
scores the claim prescribes would order cb (dot product 1) above ca (dot
product 0), and the claimed cost is initial_k = 5 calls. -/
theorem C6_rerank_amended_cex :
    (retrieveWithRerank rerankEmbed rerankSearch rerankStore "q" 2 5
        none).1.map (fun r => r.content) = ["ca", "cb"] ∧
    (retrieveWithRerank rerankEmbed rerankSearch rerankStore "q" 2 5
        none).1.map (fun r => r.rerankScore) = [none, none] ∧
    (retrieveWithRerank rerankEmbed rerankSearch rerankStore "q" 2 5
        none).2 = 0 ∧
    dotQ (rerankEmbed "q") (rerankEmbed "cb") = 1 ∧
    dotQ (rerankEmbed "q") (rerankEmbed "ca") = 0 := by
  refine ⟨by decide, by decide, by decide, ?_, ?_⟩
  · have h1 : rerankEmbed "q" = [1, 0] := by simp [rerankEmbed]
    have h2 : rerankEmbed "cb" = [1, 0] := by simp [rerankEmbed]
    rw [h1, h2]
    simp [dotQ]
  · have h1 : rerankEmbed "q" = [1, 0] := by simp [rerankEmbed]
    have h2 : rerankEmbed "ca" = [0, 1] := by simp [rerankEmbed]
    rw [h1, h2]
    simp [dotQ]

theorem parseLLMResponse_mem (ms : List (Nat × List Char)) :
    ∀ c ∈ parseLLMResponse ms,
      c.content ≠ [] ∧ 50 < c.size ∧ c.size = c.content.length := by
  intro c hc
  simp only [parseLLMResponse, List.mem_filterMap] at hc
  obtain ⟨m, _, hsome⟩ := hc
  split at hsome
  · rename_i h
    simp only [Option.some.injEq] at hsome
    subst hsome
    exact ⟨h.1, h.2, rfl⟩
  · exact absurd hsome (by simp)

theorem fallbackChunking_mem (text : List Char) :
    ∀ c ∈ fallbackChunking text,
      c.content ≠ [] ∧ 100 < c.size ∧ c.size = c.content.length ∧
        c.llm_backend = some "none" := by
  intro c hc
  simp only [fallbackChunking, List.mem_filterMap] at hc
  obtain ⟨p, _, hsome⟩ := hc
  split at hsome
  · rename_i h
    simp only [Option.some.injEq] at hsome
    subst hsome
    exact ⟨h.1, h.2, rfl, rfl⟩
  · exact absurd hsome (by simp)

theorem tagChunks_mem (backend modelName : String) (cs : List LChunk) :
    ∀ c ∈ tagChunks backend modelName cs,
      c.llm_backend = some backend ∧
      ∃ c0 ∈ cs, c.content = c0.content ∧ c.size = c0.size := by
  intro c hc
  simp only [tagChunks, List.mem_map] at hc
  obtain ⟨c0, hc0, rfl⟩ := hc
  exact ⟨rfl, c0, hc0, rfl, rfl⟩

theorem createChunk_some_spec (minSize : Nat) (lines : List (List Char))
    (cid : Nat) (sect subsect : Option (List Char)) (c : SChunk) :
    createChunk minSize lines cid sect subsect = some c →
      schunkOK minSize c := by
  intro h
  simp only [createChunk] at h
  split at h
  · exact absurd h (by simp)
  · rename_i hlen
    simp only [Option.some.injEq] at h
    subst h
    exact ⟨Nat.le_of_not_lt hlen, rfl⟩

theorem flushChunk_ok (minSize : Nat) (st : SState)
    (hst : ∀ c ∈ st.chunks, schunkOK minSize c) :
    ∀ c ∈ (flushChunk minSize st).chunks, schunkOK minSize c := by
  intro c hc
  unfold flushChunk at hc
  cases hcc : createChunk minSize st.content st.cid st.sect st.subsect with
  | none => rw [hcc] at hc; exact hst c hc
  | some c2 =>
    rw [hcc] at hc
    simp only [List.mem_append, List.mem_singleton] at hc
    rcases hc with hc | hceq
    · exact hst c hc
    · rw [hceq]
      exact createChunk_some_spec minSize st.content st.cid st.sect st.subsect
        c2 hcc

theorem structureStep_chunks_cases (minSize maxSize : Nat) (st : SState)
    (line : List Char) :
    (structureStep minSize maxSize st line).chunks = st.chunks ∨
    ∃ st2 : SState, st2.chunks = st.chunks ∧
      (structureStep minSize maxSize st line).chunks =
        (flushChunk minSize st2).chunks := by
  simp only [structureStep]
  by_cases h1 : ("=== Page".data).isPrefixOf (pyStrip line) = true
  · rw [if_pos h1]
    exact Or.inl rfl
  · rw [if_neg h1]
    by_cases h2 : isSectionHeader (pyStrip line) = true
    · rw [if_pos h2]
      by_cases h3 : st.content ≠ []
      · rw [if_pos h3]
        exact Or.inr ⟨st, rfl, rfl⟩
      · rw [if_neg h3]
        exact Or.inl rfl
    · rw [if_neg h2]
      by_cases h4 : isSubsectionHeader (pyStrip line) = true ∧
          (pyStrip line).length < 100
      · rw [if_pos h4]
        by_cases h5 : st.content ≠ [] ∧ 1 < st.content.length
        · rw [if_pos h5]
          exact Or.inr ⟨st, rfl, rfl⟩
        · rw [if_neg h5]
          exact Or.inl rfl
      · rw [if_neg h4]
        by_cases h6 : maxSize < (joinNL (st.content ++ [line])).length
        · rw [if_pos h6]
          exact Or.inr ⟨{ st with content := st.content ++ [line] }, rfl, rfl⟩
        · rw [if_neg h6]
          exact Or.inl rfl

theorem structureStep_ok (minSize maxSize : Nat) (st : SState)
    (line : List Char) (hst : ∀ c ∈ st.chunks, schunkOK minSize c) :
    ∀ c ∈ (structureStep minSize maxSize st line).chunks,
      schunkOK minSize c := by
  rcases structureStep_chunks_cases minSize maxSize st line with h | ⟨st2, h2, h⟩
  · rw [h]; exact hst
  · rw [h]
    exact flushChunk_ok minSize st2 (by rw [h2]; exact hst)

theorem foldl_structureStep_ok (minSize maxSize : Nat) :
    ∀ (lines : List (List Char)) (st : SState),
      (∀ c ∈ st.chunks, schunkOK minSize c) →
      ∀ c ∈ (lines.foldl (structureStep minSize maxSize) st).chunks,
        schunkOK minSize c := by
  intro lines
  induction lines with
  | nil => intro st hst; simpa using hst
  | cons l rest ih =>
    intro st hst
    simp only [List.foldl_cons]
    exact ih (structureStep minSize maxSize st l)
      (structureStep_ok minSize maxSize st l hst)

theorem structureChunkText_ok (minSize maxSize : Nat) (text : List Char) :
    ∀ c ∈ structureChunkText minSize maxSize text, schunkOK minSize c := by
  intro c hc
  simp only [structureChunkText] at hc
  split at hc
  · exact absurd hc (by simp)
  · split at hc
    · exact flushChunk_ok minSize _
        (foldl_structureStep_ok minSize maxSize _ {} (by simp)) c hc
    · exact foldl_structureStep_ok minSize maxSize _ {} (by simp) c hc

theorem chunkTextAuto_cases (hasLocal hasGemini : Bool)
    (lm gm : List (Nat × List Char)) (text : List Char) :
    (pyStrip text = [] ∧ chunkTextAuto hasLocal hasGemini lm gm text = []) ∨
    (hasLocal = true ∧ chunkWithLocal lm ≠ [] ∧
      chunkTextAuto hasLocal hasGemini lm gm text = chunkWithLocal lm) ∨
    (hasGemini = true ∧ chunkWithGemini gm ≠ [] ∧
      chunkTextAuto hasLocal hasGemini lm gm text = chunkWithGemini gm) ∨
    ((hasGemini = true → chunkWithGemini gm = []) ∧
      chunkTextAuto hasLocal hasGemini lm gm text = fallbackChunking text) := by
  simp only [chunkTextAuto]
  by_cases h0 : pyStrip text = []
  · rw [if_pos h0]
    exact Or.inl ⟨h0, rfl⟩
  · rw [if_neg h0]
    by_cases h1 : (if hasLocal = true then chunkWithLocal lm else []) ≠ []
    · rw [if_pos h1]
      rcases Bool.eq_false_or_eq_true hasLocal with hb | hb
      · rw [if_pos hb] at h1 ⊢
        exact Or.inr (Or.inl ⟨hb, h1, rfl⟩)
      · rw [if_neg (by simp [hb] : ¬hasLocal = true)] at h1
        exact absurd rfl h1
    · rw [if_neg h1]
      by_cases h2 : (if hasGemini = true then chunkWithGemini gm else []) ≠ []
      · rw [if_pos h2]
        rcases Bool.eq_false_or_eq_true hasGemini with hb | hb
        · rw [if_pos hb] at h2 ⊢
          exact Or.inr (Or.inr (Or.inl ⟨hb, h2, rfl⟩))
        · rw [if_neg (by simp [hb] : ¬hasGemini = true)] at h2
          exact absurd rfl h2
      · rw [if_neg h2]
        refine Or.inr (Or.inr (Or.inr ⟨?_, rfl⟩))
        intro hg
        rw [if_pos hg] at h2
        exact not_ne_iff.mp h2

theorem chunkTextAuto_content_ne (hasLocal hasGemini : Bool)
    (lm gm : List (Nat × List Char)) (text : List Char) :
    ∀ c ∈ chunkTextAuto hasLocal hasGemini lm gm text, c.content ≠ [] := by
  intro c hc
  rcases chunkTextAuto_cases hasLocal hasGemini lm gm text with
    ⟨_, h⟩ | ⟨_, _, h⟩ | ⟨_, _, h⟩ | ⟨_, h⟩ <;> rw [h] at hc
  · exact absurd hc (by simp)
  · obtain ⟨_, c0, hc0, hcs, _⟩ :=
      tagChunks_mem "local" "Qwen2.5-3B-Korean" (parseLLMResponse lm) c hc
    rw [hcs]
    exact (parseLLMResponse_mem lm c0 hc0).1
  · obtain ⟨_, c0, hc0, hcs, _⟩ :=
      tagChunks_mem "gemini" "gemini-2.0-flash-001" (parseLLMResponse gm) c hc
    rw [hcs]
    exact (parseLLMResponse_mem gm c0 hc0).1
  · exact (fallbackChunking_mem text c hc).1

/-- Claim C5 (amended): on every chunking path the emitted chunks have
non-empty content with a path-specific minimum size: over 50 characters from
the LLM-response parse, over 100 from the naive paragraph fallback, at least
min_chunk_size from the structure-aware chunker whenever that minimum is
positive, and non-empty on every branch of the hybrid fallback chain.  The
hard maximum chunk size of the original claim is not enforced, see the
counterexample. -/
theorem C5_chunk_contracts :
    ∀ (ms lm gm : List (Nat × List Char)) (text : List Char)
      (minSize maxSize : Nat) (hasLocal hasGemini : Bool),
      (∀ c ∈ parseLLMResponse ms, c.content ≠ [] ∧ 50 < c.size) ∧
      (∀ c ∈ fallbackChunking text, c.content ≠ [] ∧ 100 < c.size) ∧
      (1 ≤ minSize → ∀ c ∈ structureChunkText minSize maxSize text,
        c.content ≠ [] ∧ minSize ≤ c.size) ∧
      (∀ c ∈ chunkTextAuto hasLocal hasGemini lm gm text, c.content ≠ []) := by
  intro ms lm gm text minSize maxSize hasLocal hasGemini
  refine ⟨?_, ?_, ?_, chunkTextAuto_content_ne hasLocal hasGemini lm gm text⟩
  · intro c hc
    obtain ⟨h1, h2, _⟩ := parseLLMResponse_mem ms c hc
    exact ⟨h1, h2⟩
  · intro c hc
    obtain ⟨h1, h2, _, _⟩ := fallbackChunking_mem text c hc
    exact ⟨h1, h2⟩
  · intro hmin c hc
    obtain ⟨hle, hsz⟩ := structureChunkText_ok minSize maxSize text c hc
    refine ⟨?_, hle⟩
    have : 1 ≤ c.content.length := le_trans hmin (hsz ▸ hle)
    exact List.ne_nil_of_length_pos this

/-- Witness for C5: the structure chunker with minimum 10 on the 60-character
line emits only chunks of size at least 10 with non-empty content. -/
theorem C5_chunk_contracts_witness :
    (1 : Nat) ≤ 10 ∧
    ∀ c ∈ structureChunkText 10 50 cexLongLine,
      c.content ≠ [] ∧ 10 ≤ c.size :=
  ⟨by decide,
   (C5_chunk_contracts [] [] [] cexLongLine 10 50 true true).2.2.1 (by decide)⟩

/-- Counterexample for C5 as stated: the structure-aware chunker configured
with hard maximum 50 emits, for a single 60-character line, one chunk of size
60, exceeding the configured maximum; the size cap is checked only after the
line has been accumulated, so the emitted chunk may exceed it. -/
theorem C5_chunk_contracts_cex :
    structureChunkText 10 50 cexLongLine =
      [{ id := 1, content := cexLongLine, size := 60
         sec := "Unknown".data, subsec := none }] ∧ 50 < 60 := by
  exact ⟨by decide, by decide⟩

/-- Claim C7: in the hybrid AUTO chain, when the local backend produces no
chunks (failure, no parse, or absence) and the gemini backend parses a
non-empty result, every returned chunk is tagged gemini and none is tagged
local; and the chain stops at the first backend with a non-empty parse: with
a working local backend the gemini backend is never consulted and the local
tagging is returned. -/
theorem C7_fallback_chain :
    ∀ (hasLocal hasGemini : Bool) (lm gm : List (Nat × List Char))
      (text : List Char),
      (parseLLMResponse lm = [] → hasGemini = true →
        parseLLMResponse gm ≠ [] →
        ∀ c ∈ chunkTextAuto hasLocal hasGemini lm gm text,
          c.llm_backend = some "gemini" ∧ ¬c.llm_backend = some "local") ∧
      (pyStrip text ≠ [] → hasLocal = true → parseLLMResponse lm ≠ [] →
        chunkTextAuto hasLocal hasGemini lm gm text = chunkWithLocal lm) := by
  intro hasLocal hasGemini lm gm text
  constructor
  · intro hlm hg hgm c hc
    have hlempty : chunkWithLocal lm = [] := by
      simp [chunkWithLocal, tagChunks, hlm]
    have hgem : chunkWithGemini gm ≠ [] := by
      simp [chunkWithGemini, tagChunks, hgm]
    rcases chunkTextAuto_cases hasLocal hasGemini lm gm text with
      ⟨_, h⟩ | ⟨_, hne, _⟩ | ⟨_, _, h⟩ | ⟨hfb, _⟩
    · rw [h] at hc
      exact absurd hc (by simp)
    · exact absurd hlempty hne
    · rw [h] at hc
      obtain ⟨hb, _⟩ :=
        tagChunks_mem "gemini" "gemini-2.0-flash-001" (parseLLMResponse gm) c hc
      exact ⟨hb, by rw [hb]; simp⟩
    · exact absurd (hfb hg) hgem
  · intro htext hl hlm
    have hne : chunkWithLocal lm ≠ [] := by
      simp [chunkWithLocal, tagChunks, hlm]
    simp only [chunkTextAuto]
    rw [if_neg htext]
    rw [if_pos hl]
    rw [if_pos hne]

/-- Witness for C7: empty local parse, one 60-character gemini match, a
non-blank text: the whole return is gemini-tagged. -/
theorem C7_fallback_chain_witness :
    parseLLMResponse ([] : List (Nat × List Char)) = [] ∧
    parseLLMResponse [(1, List.replicate 60 'a')] ≠ [] ∧
    ∀ c ∈ chunkTextAuto true true [] [(1, List.replicate 60 'a')]
        (List.replicate 10 'b'),
      c.llm_backend = some "gemini" ∧ ¬c.llm_backend = some "local" :=
  ⟨rfl, by decide,
   (C7_fallback_chain true true [] [(1, List.replicate 60 'a')]
       (List.replicate 10 'b')).1 rfl rfl (by decide)⟩

end NewEra
